import Mathlib

/-!
Verification of the claim-based work queue of the `Kom` repository
(`src/flask_api_receiver.py` together with the worker client in
`src/download_file.py` and the uploader client in `src/test_rclone_upload.py`).

The store is the `book_data` table.  Each row is a `Book`; the columns that
participate in the queue protocol are `id` (primary key), `download_status`
(`'pending' | 'in_progress' | 'done' | 'failed'`), `claimed_by`
(nullable string), `files_url_drive` (nullable string) and `updated_at`.
The remaining columns (`title`, `author`, `publisher`, ...) are opaque
metadata never read by the claim/report/reset logic and are omitted.

Each Flask endpoint runs inside a single database transaction
(`with_for_update(skip_locked=True)` followed by `commit`), so a claim call
is atomic with respect to every other store operation.  Concurrency is
therefore modelled as an arbitrary sequence of atomic operations on the
store; an interleaving of concurrent calls is one such sequence.
Timestamps are modelled as natural numbers (hours, matching the
`max_age_hours` granularity of `reset_inprogress`).
-/

namespace Kom

/-- A row of the `book_data` table (`BookData` model,
`src/flask_api_receiver.py` lines 126-145), restricted to the columns the
queue logic reads or writes.  `claimed_by = none` models SQL NULL. -/
structure Book where
  id : String
  download_status : String
  claimed_by : Option String
  files_url_drive : Option String
  updated_at : Nat
deriving Repr, DecidableEq

/-- Predicate `download_status == 'pending'`: the selection filter of `claim_books`
(line 297). -/
def isPending (b : Book) : Bool := b.download_status == "pending"

/-- The SQL predicate `(col IS NULL) OR (col = '')` used by
`claim_upload_batch` (lines 406-407). -/
def isNullOrEmpty : Option String → Bool
  | none => true
  | some s => s == ""

/-- Selection filter of `claim_upload_batch` (lines 404-408):
`download_status == 'done' AND (files_url_drive IS NULL OR = '')
AND (claimed_by IS NULL OR = '')`. -/
def uploadEligible (b : Book) : Bool :=
  b.download_status == "done" && isNullOrEmpty b.files_url_drive &&
    isNullOrEmpty b.claimed_by

/-- The mutation applied to each selected row by `claim_books`
(lines 304-306). -/
def claimBook (iid : String) (now : Nat) (b : Book) : Book :=
  { b with download_status := "in_progress", claimed_by := some iid,
           updated_at := now }

/-- The body of the `claim_books` transaction (lines 295-309): select up to
`n` rows with `download_status = 'pending'` in store order, mark each
`in_progress`/`claimed_by = iid`/`updated_at = now`.  Returns the claimed
rows (as mutated, line 307) and the updated store. -/
def claimLoop (iid : String) (now : Nat) : Nat → List Book → List Book × List Book
  | _, [] => ([], [])
  | 0, s => ([], s)
  | n + 1, b :: rest =>
    if isPending b then
      (claimBook iid now b :: (claimLoop iid now n rest).1,
       claimBook iid now b :: (claimLoop iid now n rest).2)
    else
      ((claimLoop iid now (n + 1) rest).1,
       b :: (claimLoop iid now (n + 1) rest).2)

/-- Endpoint `POST /claim_books` (lines 285-312).  `req`/`iid` are the optional JSON
fields `batch_size` and `instance_id` with their defaults (line 288-289);
the batch size is clamped to 20 and an empty or over-long `instance_id` is
rejected before anything is claimed (lines 291-292). -/
def claim_books (req : Option Nat) (iid : Option String) (now : Nat)
    (s : List Book) : Except String (List Book × List Book) :=
  let batch_size := min (req.getD 5) 20
  let instance_id := iid.getD "instance"
  if instance_id = "" ∨ 64 < instance_id.length then
    Except.error "Invalid instance_id"
  else
    Except.ok (claimLoop instance_id now batch_size s)

/-- The mutation applied by `claim_upload_batch` (lines 413-415): only
`claimed_by` and `updated_at` change; `download_status` stays `'done'`. -/
def claimUploadBook (iid : String) (now : Nat) (b : Book) : Book :=
  { b with claimed_by := some iid, updated_at := now }

/-- The body of the `claim_upload_batch` transaction (lines 402-417). -/
def claimUploadLoop (iid : String) (now : Nat) :
    Nat → List Book → List Book × List Book
  | _, [] => ([], [])
  | 0, s => ([], s)
  | n + 1, b :: rest =>
    if uploadEligible b then
      (claimUploadBook iid now b :: (claimUploadLoop iid now n rest).1,
       claimUploadBook iid now b :: (claimUploadLoop iid now n rest).2)
    else
      ((claimUploadLoop iid now (n + 1) rest).1,
       b :: (claimUploadLoop iid now (n + 1) rest).2)

/-- Endpoint `POST /claim_upload_batch` (lines 392-436): defaults `batch_size = 10`,
`instance_id = 'uploader'` (lines 395-396), clamp to 20, same
`instance_id` validation (lines 398-399). -/
def claim_upload_batch (req : Option Nat) (iid : Option String) (now : Nat)
    (s : List Book) : Except String (List Book × List Book) :=
  let batch_size := min (req.getD 10) 20
  let instance_id := iid.getD "uploader"
  if instance_id = "" ∨ 64 < instance_id.length then
    Except.error "Invalid instance_id"
  else
    Except.ok (claimUploadLoop instance_id now batch_size s)

/-- A JSON payload for `POST /upload_data`, restricted to the keys the
queue clients actually send: `download_status`, `claimed_by`,
`files_url_drive` (real `BookData` columns) and `download_path`
(sent by `update_book_status` in `src/download_file.py` line 396 but NOT a
`BookData` column).  For a column field, `some v` means the key is present
with value `v` (an inner `none` is JSON null). -/
structure UpdatePayload where
  download_status : Option String := none
  claimed_by : Option (Option String) := none
  files_url_drive : Option (Option String) := none
  download_path : Option String := none
deriving Repr, DecidableEq

/-- The update branch of `upload_data` (lines 263-266): for each payload
key, `if hasattr(book, k) and k != 'id': setattr(book, k, v)`, then
`book.updated_at = utcnow()`.  `download_path` is not an attribute of
`BookData`, so `hasattr` is false and the key is silently dropped. -/
def applyPayload (p : UpdatePayload) (now : Nat) (b : Book) : Book :=
  { b with download_status := p.download_status.getD b.download_status,
           claimed_by := p.claimed_by.getD b.claimed_by,
           files_url_drive := p.files_url_drive.getD b.files_url_drive,
           updated_at := now }

/-- The insert branch of `upload_data` (line 271), `BookData(**data)`:
column defaults are `download_status = 'pending'`, `claimed_by` NULL,
`updated_at = utcnow()` (model lines 142-145). -/
def newBook (bid : String) (p : UpdatePayload) (now : Nat) : Book :=
  { id := bid,
    download_status := p.download_status.getD "pending",
    claimed_by := p.claimed_by.getD none,
    files_url_drive := p.files_url_drive.getD none,
    updated_at := now }

/-- Endpoint `POST /upload_data`, single-item branch (lines 255-280).
`BookData.query.get(id)` finds the row with primary key `bid` (ids are
unique, so mapping over all matches is the same row).  If no row exists,
`BookData(**data)` is constructed: when the payload carries the unknown
key `download_path` this raises `TypeError`, the handler rolls back and
returns 500, leaving the store unchanged. -/
def upload_data (bid : String) (p : UpdatePayload) (now : Nat)
    (s : List Book) : List Book :=
  if s.any (fun b => b.id == bid) then
    s.map (fun b => if b.id == bid then applyPayload p now b else b)
  else if p.download_path.isSome then
    s
  else
    s ++ [newBook bid p now]

/-- Client call `update_book_status(book_id, status, download_path)` in
`src/download_file.py` (lines 393-404): posts
`{"id": book_id, "download_status": status}` plus `download_path` when
given, to `/upload_data`. -/
def update_book_status (bid status : String) (download_path : Option String)
    (now : Nat) (s : List Book) : List Book :=
  upload_data bid
    { download_status := some status, download_path := download_path } now s

/-- The row filter of `reset_inprogress` (lines 330-342), with
`cutoff = now - max_age_hours`: optional `claimed_by = instance_id` filter
(skipped when `instance_id` is absent or falsy, line 332),
`updated_at < cutoff` (line 337), and status `'in_progress'`
(or also `'failed'` when `reset_failed`, lines 339-342). -/
def resetMatches (iid : Option String) (reset_failed : Bool) (cutoff : Nat)
    (b : Book) : Bool :=
  (match iid with
   | none => true
   | some w => if w == "" then true else b.claimed_by == some w) &&
  decide (b.updated_at < cutoff) &&
  (if reset_failed then
     b.download_status == "in_progress" || b.download_status == "failed"
   else b.download_status == "in_progress")

/-- The mutation applied to each matching row (lines 346-348). -/
def resetBook (now : Nat) (b : Book) : Book :=
  { b with download_status := "pending", claimed_by := none,
           updated_at := now }

/-- The mutate-and-count loop of `reset_inprogress` (lines 344-349). -/
def resetLoop (p : Book → Bool) (now : Nat) : List Book → List Book × Nat
  | [] => ([], 0)
  | b :: rest =>
    if p b then
      (resetBook now b :: (resetLoop p now rest).1, (resetLoop p now rest).2 + 1)
    else
      (b :: (resetLoop p now rest).1, (resetLoop p now rest).2)

/-- Endpoint `POST /reset_inprogress` (lines 322-354): returns the updated store and
`reset_count`. -/
def reset_inprogress (iid : Option String) (reset_failed : Bool)
    (max_age now : Nat) (s : List Book) : List Book × Nat :=
  resetLoop (resetMatches iid reset_failed (now - max_age)) now s

/-! Section: Lemmas about `reset_inprogress` -/

/-- Specification-level reading of the `reset_inprogress` row filter. -/
def ResetMatchesProp (iid : Option String) (reset_failed : Bool)
    (cutoff : Nat) (b : Book) : Prop :=
  (b.download_status = "in_progress" ∨
     (reset_failed = true ∧ b.download_status = "failed")) ∧
  (∀ w : String, iid = some w → w ≠ "" → b.claimed_by = some w) ∧
  b.updated_at < cutoff

theorem resetMatches_iff (iid : Option String) (reset_failed : Bool)
    (cutoff : Nat) (b : Book) :
    resetMatches iid reset_failed cutoff b = true ↔
      ResetMatchesProp iid reset_failed cutoff b := by
  unfold resetMatches ResetMatchesProp
  cases iid with
  | none =>
    cases reset_failed <;>
      simp [Bool.and_eq_true, beq_iff_eq] <;> tauto
  | some w =>
    by_cases hw : w = "" <;>
      cases reset_failed <;>
        simp [hw, Bool.and_eq_true, beq_iff_eq] <;> tauto

theorem resetLoop_spec (p : Book → Bool) (now : Nat) (s : List Book) :
    List.Forall₂ (fun b b' =>
        (p b = true → b' = resetBook now b) ∧ (p b = false → b' = b))
      s (resetLoop p now s).1 ∧
    (resetLoop p now s).2 = (s.filter p).length := by
  induction s with
  | nil => simp [resetLoop]
  | cons b rest ih =>
    rcases hb : p b with _ | _
    · have hf : List.filter p (b :: rest) = List.filter p rest := by
        simp [List.filter_cons, hb]
      have hl : resetLoop p now (b :: rest) =
          (b :: (resetLoop p now rest).1, (resetLoop p now rest).2) := by
        simp [resetLoop, hb]
      rw [hl, hf]
      exact ⟨List.Forall₂.cons
        ⟨fun h => (by rw [hb] at h; cases h), fun _ => rfl⟩ ih.1, ih.2⟩
    · have hf : List.filter p (b :: rest) = b :: List.filter p rest := by
        simp [List.filter_cons, hb]
      have hl : resetLoop p now (b :: rest) =
          (resetBook now b :: (resetLoop p now rest).1,
           (resetLoop p now rest).2 + 1) := by
        simp [resetLoop, hb]
      rw [hl, hf]
      exact ⟨List.Forall₂.cons
        ⟨fun _ => rfl, fun h => (by rw [hb] at h; cases h)⟩ ih.1,
        by simp [ih.2]⟩

/-- C6: `reset_inprogress` resets exactly the matching rows (status back to
`'pending'`, `claimed_by` cleared), leaves every other row untouched, and
returns the number of rows it reset. -/
theorem C6_reset_exactly_matching (iid : Option String) (reset_failed : Bool)
    (max_age now : Nat) (s : List Book) :
    List.Forall₂ (fun b b' =>
        (ResetMatchesProp iid reset_failed (now - max_age) b →
          b' = resetBook now b) ∧
        (¬ ResetMatchesProp iid reset_failed (now - max_age) b → b' = b))
      s (reset_inprogress iid reset_failed max_age now s).1 ∧
    (reset_inprogress iid reset_failed max_age now s).2 =
      (s.filter (resetMatches iid reset_failed (now - max_age))).length := by
  have h := resetLoop_spec (resetMatches iid reset_failed (now - max_age)) now s
  refine ⟨h.1.imp ?_, h.2⟩
  intro b b' hb
  constructor
  · intro hm
    exact hb.1 ((resetMatches_iff iid reset_failed (now - max_age) b).mpr hm)
  · intro hm
    refine hb.2 ?_
    rcases hb' : resetMatches iid reset_failed (now - max_age) b with _ | _
    · rfl
    · exact absurd ((resetMatches_iff iid reset_failed (now - max_age) b).mp hb') hm

def W6store : List Book :=
  [⟨"b1", "in_progress", some "w1", none, 10⟩,
   ⟨"b2", "done", some "w1", none, 10⟩]

/-- Witness for C6 at a concrete store: the stuck `in_progress` row is
reset (its new state is `resetBook`'s), the `done` row is untouched, and
the count is 1. -/
theorem C6_reset_exactly_matching_witness :
    (reset_inprogress (some "w1") false 5 100 W6store).1 =
      [⟨"b1", "pending", none, none, 100⟩,
       ⟨"b2", "done", some "w1", none, 10⟩] ∧
    (reset_inprogress (some "w1") false 5 100 W6store).2 = 1 := by
  have h := C6_reset_exactly_matching (some "w1") false 5 100 W6store
  have hr : (reset_inprogress (some "w1") false 5 100 W6store).1 =
      [⟨"b1", "pending", none, none, 100⟩,
       ⟨"b2", "done", some "w1", none, 10⟩] := by decide
  have h1 := h.1
  rw [hr] at h1
  rcases h1 with _ | ⟨hb1, h1⟩
  rcases h1 with _ | ⟨hb2, -⟩
  have e1 : (⟨"b1", "pending", none, none, 100⟩ : Book) =
      resetBook 100 ⟨"b1", "in_progress", some "w1", none, 10⟩ :=
    hb1.1 ⟨Or.inl rfl, fun w hw _ => by cases hw; rfl, by norm_num⟩
  have e2 : (⟨"b2", "done", some "w1", none, 10⟩ : Book) =
      ⟨"b2", "done", some "w1", none, 10⟩ :=
    hb2.2 (by
      rintro ⟨hst, -, -⟩
      rcases hst with hst | hst
      · exact absurd hst (by decide)
      · exact absurd hst.1 (by decide))
  exact ⟨hr.trans (by rw [e1, e2]), h.2.trans (by decide)⟩

theorem resetMatches_resetBook (iid : Option String) (reset_failed : Bool)
    (cutoff now : Nat) (b : Book) :
    resetMatches iid reset_failed cutoff (resetBook now b) = false := by
  unfold resetMatches
  have hst : (resetBook now b).download_status = "pending" := rfl
  rw [hst]
  have h2 : (if reset_failed = true then
      (("pending" : String) == "in_progress" || ("pending" : String) == "failed")
    else (("pending" : String) == "in_progress")) = false := by
    cases reset_failed <;> decide
  rw [h2, Bool.and_false]

/-- C9: `reset_inprogress` is idempotent — a row it resets becomes
`'pending'`, which no longer matches the filter, so an immediate second
run with the same parameters changes nothing and reports zero resets. -/
theorem C9_reset_idempotent (iid : Option String) (reset_failed : Bool)
    (max_age now : Nat) (s : List Book) :
    reset_inprogress iid reset_failed max_age now
        ((reset_inprogress iid reset_failed max_age now s).1) =
      ((reset_inprogress iid reset_failed max_age now s).1, 0) := by
  unfold reset_inprogress
  induction s with
  | nil => simp [resetLoop]
  | cons b rest ih =>
    by_cases hb : resetMatches iid reset_failed (now - max_age) b = true
    · simp [resetLoop, hb, resetMatches_resetBook, Prod.ext_iff] at ih ⊢
      exact ih
    · have hb' : resetMatches iid reset_failed (now - max_age) b = false := by
        simpa using hb
      simp [resetLoop, hb', Prod.ext_iff] at ih ⊢
      exact ih

/-- C10: `reset_inprogress` never modifies a row whose `download_status`
is `'done'` (the filter only matches `'in_progress'`/`'failed'`), and
every row handed out by `claim_upload_batch` has `download_status =
'done'`; hence an upload-stage claim is never reclaimed by any reset. -/
theorem C10_reset_preserves_done (iid : Option String) (reset_failed : Bool)
    (max_age now : Nat) (s : List Book) :
    List.Forall₂ (fun b b' => b.download_status = "done" → b' = b)
      s (reset_inprogress iid reset_failed max_age now s).1 ∧
    (∀ (req : Option Nat) (u : String) (t : Nat) (cs s' : List Book),
      claim_upload_batch req (some u) t s = Except.ok (cs, s') →
      ∀ b ∈ cs, b.download_status = "done") := by
  constructor
  · refine (resetLoop_spec (resetMatches iid reset_failed (now - max_age))
      now s).1.imp ?_
    intro b b' hb hdone
    refine hb.2 ?_
    rcases hm : resetMatches iid reset_failed (now - max_age) b with _ | _
    · rfl
    · rcases ((resetMatches_iff _ _ _ b).mp hm).1 with hst | hst
      · rw [hdone] at hst; exact absurd hst (by decide)
      · rw [hdone] at hst; exact absurd hst.2 (by decide)
  · intro req u t cs s' hok b hb
    have hloop : ∀ (n : Nat) (t' : Nat) (l : List Book),
        ∀ b ∈ (claimUploadLoop u t' n l).1, b.download_status = "done" := by
      intro n t' l
      induction l generalizing n with
      | nil => simp [claimUploadLoop]
      | cons x rest ih =>
        cases n with
        | zero => simp [claimUploadLoop]
        | succ m =>
          by_cases hx : uploadEligible x = true
          · intro b hb
            simp only [claimUploadLoop, hx, if_true] at hb
            rcases List.mem_cons.mp hb with hb | hb
            · subst hb
              have : x.download_status = "done" := by
                have hx' := hx
                unfold uploadEligible at hx'
                simp only [Bool.and_eq_true, beq_iff_eq] at hx'
                exact hx'.1.1
              simpa [claimUploadBook] using this
            · exact ih m b hb
          · simp only [Bool.not_eq_true] at hx
            intro b hb
            simp only [claimUploadLoop, hx] at hb
            exact ih (m + 1) b hb
    unfold claim_upload_batch at hok
    by_cases hu : u = "" ∨ 64 < u.length
    · simp [hu] at hok
    · simp only [hu, if_false, Option.getD_some, Except.ok.injEq,
        Prod.ext_iff] at hok
      rcases hok with ⟨hcs, -⟩
      rw [← hcs] at hb
      exact hloop _ t s b hb

def W10store : List Book :=
  [⟨"b1", "done", none, none, 0⟩, ⟨"b2", "in_progress", some "w1", none, 0⟩]

/-- Witness for C10: on a concrete store, the `done` row survives a
sweeping reset unchanged, and a concrete upload-stage claim returns only
`done` rows. -/
theorem C10_reset_preserves_done_witness :
    (reset_inprogress none true 0 50 W10store).1.head? =
      some ⟨"b1", "done", none, none, 0⟩ ∧
    (∀ b ∈ [(⟨"b1", "done", some "u1", none, 3⟩ : Book)],
      b.download_status = "done") := by
  have h := C10_reset_preserves_done none true 0 50 W10store
  have hr : (reset_inprogress none true 0 50 W10store).1 =
      [⟨"b1", "done", none, none, 0⟩, ⟨"b2", "pending", none, none, 50⟩] := by
    decide
  have h1 := h.1
  rw [hr] at h1
  rcases h1 with _ | ⟨hb1, -⟩
  refine ⟨by rw [hr]; rfl, ?_⟩
  exact h.2 (some 10) "u1" 3
    [⟨"b1", "done", some "u1", none, 3⟩]
    [⟨"b1", "done", some "u1", none, 3⟩,
     ⟨"b2", "in_progress", some "w1", none, 0⟩] rfl

/-! Section: Batch-size clamping and `instance_id` validation (C8) -/

theorem claimLoop_length_le (iid : String) (now : Nat) :
    ∀ (n : Nat) (s : List Book), (claimLoop iid now n s).1.length ≤ n := by
  intro n s
  induction s generalizing n with
  | nil => simp [claimLoop]
  | cons b rest ih =>
    cases n with
    | zero => simp [claimLoop]
    | succ m =>
      rcases hb : isPending b with _ | _
      · simpa [claimLoop, hb] using ih (m + 1)
      · simpa [claimLoop, hb, Nat.succ_le_succ_iff] using ih m

theorem claimLoop_takes_all_pending (iid : String) (now : Nat) :
    ∀ (n : Nat) (s : List Book), s.countP isPending ≤ n →
      (claimLoop iid now n s).1.map Book.id =
        (s.filter isPending).map Book.id := by
  intro n s
  induction s generalizing n with
  | nil => simp [claimLoop]
  | cons b rest ih =>
    intro hcount
    rcases hb : isPending b with _ | _
    · have hc : rest.countP isPending ≤ n := by
        simpa [List.countP_cons, hb] using hcount
      cases n with
      | zero =>
        have h0 : rest.countP isPending = 0 := Nat.le_zero.mp hc
        have hnil : rest.filter isPending = [] :=
          List.filter_eq_nil_iff.mpr (List.countP_eq_zero.mp h0)
        simp [claimLoop, List.filter_cons, hb, hnil]
      | succ m => simp [claimLoop, List.filter_cons, hb, ih (m + 1) hc]
    · cases n with
      | zero =>
        exfalso
        simp [List.countP_cons, hb] at hcount
      | succ m =>
        have hc : rest.countP isPending ≤ m := by
          have h1 : rest.countP isPending + 1 ≤ m + 1 := by
            simpa [List.countP_cons, hb] using hcount
          omega
        simp [claimLoop, List.filter_cons, hb, claimBook, ih m hc]

theorem claimUploadLoop_length_le (iid : String) (now : Nat) :
    ∀ (n : Nat) (s : List Book), (claimUploadLoop iid now n s).1.length ≤ n := by
  intro n s
  induction s generalizing n with
  | nil => simp [claimUploadLoop]
  | cons b rest ih =>
    cases n with
    | zero => simp [claimUploadLoop]
    | succ m =>
      rcases hb : uploadEligible b with _ | _
      · simpa [claimUploadLoop, hb] using ih (m + 1)
      · simpa [claimUploadLoop, hb, Nat.succ_le_succ_iff] using ih m

/-- C8: every claim call returns at most 20 rows however large the
requested `batch_size` is; when at most the clamped batch size of pending
rows exist, `claim_books` returns exactly the pending rows (possibly
none); and an empty or over-64-character `instance_id` is rejected by
both claim endpoints without claiming anything. -/
theorem C8_claim_bounds :
    (∀ (req : Option Nat) (w : String) (now : Nat) (s cs s' : List Book),
        claim_books req (some w) now s = Except.ok (cs, s') →
        cs.length ≤ 20) ∧
    (∀ (req : Option Nat) (w : String) (now : Nat) (s cs s' : List Book),
        claim_books req (some w) now s = Except.ok (cs, s') →
        s.countP isPending ≤ min (req.getD 5) 20 →
        cs.map Book.id = (s.filter isPending).map Book.id) ∧
    (∀ (req : Option Nat) (w : String) (now : Nat) (s : List Book),
        w = "" ∨ 64 < w.length →
        claim_books req (some w) now s = Except.error "Invalid instance_id") ∧
    (∀ (req : Option Nat) (w : String) (now : Nat) (s cs s' : List Book),
        claim_upload_batch req (some w) now s = Except.ok (cs, s') →
        cs.length ≤ 20) ∧
    (∀ (req : Option Nat) (w : String) (now : Nat) (s : List Book),
        w = "" ∨ 64 < w.length →
        claim_upload_batch req (some w) now s =
          Except.error "Invalid instance_id") := by
  refine ⟨?_, ?_, ?_, ?_, ?_⟩
  · intro req w now s cs s' h
    unfold claim_books at h
    by_cases hw : w = "" ∨ 64 < w.length
    · simp [hw] at h
    · simp only [hw, if_false, Option.getD_some, Except.ok.injEq,
        Prod.ext_iff] at h
      rw [← h.1]
      exact le_trans (claimLoop_length_le w now _ s) (min_le_right _ 20)
  · intro req w now s cs s' h hcount
    unfold claim_books at h
    by_cases hw : w = "" ∨ 64 < w.length
    · simp [hw] at h
    · simp only [hw, if_false, Option.getD_some, Except.ok.injEq,
        Prod.ext_iff] at h
      rw [← h.1]
      exact claimLoop_takes_all_pending w now _ s hcount
  · intro req w now s hw
    unfold claim_books
    simp [hw]
  · intro req w now s cs s' h
    unfold claim_upload_batch at h
    by_cases hw : w = "" ∨ 64 < w.length
    · simp [hw] at h
    · simp only [hw, if_false, Option.getD_some, Except.ok.injEq,
        Prod.ext_iff] at h
      rw [← h.1]
      exact le_trans (claimUploadLoop_length_le w now _ s) (min_le_right _ 20)
  · intro req w now s hw
    unfold claim_upload_batch
    simp [hw]

def W8store : List Book :=
  [⟨"p1", "pending", none, none, 0⟩, ⟨"p2", "pending", none, none, 0⟩,
   ⟨"p3", "pending", none, none, 0⟩]

def W8claimed : List Book :=
  [⟨"p1", "in_progress", some "w1", none, 7⟩,
   ⟨"p2", "in_progress", some "w1", none, 7⟩,
   ⟨"p3", "in_progress", some "w1", none, 7⟩]

/-- Witness for C8: a request for 100 rows over 3 pending rows returns all
3 (≤ 20), and an empty `instance_id` is rejected. -/
theorem C8_claim_bounds_witness :
    W8claimed.length ≤ 20 ∧
    W8claimed.map Book.id = (W8store.filter isPending).map Book.id ∧
    claim_books (some 100) (some "") 7 W8store =
      Except.error "Invalid instance_id" :=
  ⟨C8_claim_bounds.1 (some 100) "w1" 7 W8store W8claimed W8claimed rfl,
   C8_claim_bounds.2.1 (some 100) "w1" 7 W8store W8claimed W8claimed rfl
     (by decide),
   C8_claim_bounds.2.2.1 (some 100) "" 7 W8store (Or.inl rfl)⟩

/-! Section: The report operation (C3, C4) -/

def S3store : List Book := [⟨"b1", "in_progress", some "w1", none, 1⟩]

/-- C3 (code bug): a Done report against a leased row sets the status and
stamps `updated_at`, but does NOT clear `claimed_by` (the payload never
mentions it) and silently drops the `download_path` result payload
(`BookData` has no such column, so the `hasattr` guard skips it). -/
theorem C3_report_keeps_claimed_by :
    update_book_status "b1" "done" (some "download_files/book.pdf") 2
        S3store =
      [⟨"b1", "done", some "w1", none, 2⟩] := rfl

def S4store : List Book := [⟨"b1", "done", none, some "drive/url", 0⟩]

/-- C4 counterexample: a report against a row that is NOT `in_progress`
(here a terminal `done` row) is not a no-op — it overwrites the status. -/
theorem C4_stale_report_counterexample :
    (∀ b ∈ S4store, b.download_status ≠ "in_progress") ∧
    update_book_status "b1" "failed" none 5 S4store ≠ S4store ∧
    (update_book_status "b1" "failed" none 5 S4store).map
        Book.download_status = ["failed"] :=
  ⟨by decide, by decide, rfl⟩

/-- C4 amended: `upload_data` performs the same unconditional field-merge
whatever the row's current status: the reported outcome is written and
`updated_at` stamped, with `claimed_by` and `files_url_drive` untouched —
there is no leased-state guard at all. -/
theorem C4_report_unconditional_update (bid outcome : String)
    (dp : Option String) (now : Nat) (s : List Book)
    (h : ∃ b ∈ s, b.id = bid) :
    update_book_status bid outcome dp now s =
      s.map (fun b => if b.id = bid then
        { b with download_status := outcome, updated_at := now } else b) := by
  unfold update_book_status upload_data
  have hany : s.any (fun b => b.id == bid) = true := by
    rcases h with ⟨b, hb, hid⟩
    exact List.any_eq_true.mpr ⟨b, hb, by simp [hid]⟩
  rw [if_pos hany]
  have hfun : (fun b : Book => if b.id == bid then
      applyPayload { download_status := some outcome, download_path := dp }
        now b else b) =
      (fun b : Book => if b.id = bid then
        { b with download_status := outcome, updated_at := now } else b) := by
    funext b
    by_cases hid : b.id = bid
    · simp [hid, applyPayload]
    · simp [hid]
  rw [hfun]

def W4store : List Book := [⟨"b1", "pending", none, none, 0⟩]

/-- Witness for C4 amended at a concrete pending row. -/
theorem C4_report_unconditional_update_witness :
    update_book_status "b1" "done" (some "d/f.pdf") 9 W4store =
      W4store.map (fun b => if b.id = "b1" then
        { b with download_status := "done", updated_at := 9 } else b) :=
  C4_report_unconditional_update "b1" "done" (some "d/f.pdf") 9 W4store
    ⟨⟨"b1", "pending", none, none, 0⟩, by decide, rfl⟩

/-! Section: Two-stage pipeline handoff (C2) -/

def S2pending : List Book := [⟨"b1", "pending", none, none, 0⟩]
def S2claimed : List Book := [⟨"b1", "in_progress", some "w1", none, 1⟩]
def S2done : List Book := [⟨"b1", "done", some "w1", none, 2⟩]

/-- C2 (code bug): after the download worker claims a pending book and
reports it Done, the row has `download_status = 'done'` and an empty
`files_url_drive`, yet `claim_upload_batch` returns nothing: the report
left `claimed_by = 'w1'` set, so the upload-eligibility filter
(`claimed_by IS NULL OR = ''`) rejects the row forever. -/
theorem C2_done_report_not_upload_claimable :
    claim_books (some 5) (some "w1") 1 S2pending =
      Except.ok (S2claimed, S2claimed) ∧
    update_book_status "b1" "done" (some "download_files/book.pdf") 2
        S2claimed = S2done ∧
    claim_upload_batch (some 10) (some "u1") 3 S2done =
      Except.ok ([], S2done) ∧
    uploadEligible ⟨"b1", "done", some "w1", none, 2⟩ = false :=
  ⟨rfl, rfl, rfl, rfl⟩

/-! Section: Reachable-state invariant (C5)

The store operations of the deployed system: the two claim endpoints, the
report calls made by the download worker (`update_book_status` with
outcome `'done'` or `'failed'`) and the uploader (`update_upload_status`,
which posts `files_url_drive`), and the reconciler's reset. -/

inductive Op where
  | claim (req : Option Nat) (iid : Option String) (now : Nat)
  | claimUpload (req : Option Nat) (iid : Option String) (now : Nat)
  | reportDone (bid : String) (download_path : Option String) (now : Nat)
  | reportFailed (bid : String) (now : Nat)
  | uploadReport (bid : String) (drive_url : String) (now : Nat)
  | reset (iid : Option String) (reset_failed : Bool) (max_age now : Nat)

def applyOp : Op → List Book → List Book
  | Op.claim req iid now, s =>
    match claim_books req iid now s with
    | Except.ok r => r.2
    | Except.error _ => s
  | Op.claimUpload req iid now, s =>
    match claim_upload_batch req iid now s with
    | Except.ok r => r.2
    | Except.error _ => s
  | Op.reportDone bid dp now, s => update_book_status bid "done" dp now s
  | Op.reportFailed bid now, s => update_book_status bid "failed" none now s
  | Op.uploadReport bid url now, s =>
    upload_data bid { files_url_drive := some (some url) } now s
  | Op.reset iid rf age now, s => (reset_inprogress iid rf age now s).1

def applyOps (ops : List Op) (s : List Book) : List Book :=
  ops.foldl (fun t op => applyOp op t) s

/-- The half of the spec invariant that does hold: an `in_progress` row
always has a non-empty `claimed_by`. -/
def InProgressClaimed (s : List Book) : Prop :=
  ∀ b ∈ s, b.download_status = "in_progress" →
    isNullOrEmpty b.claimed_by = false

theorem claimLoop_mem_store (iid : String) (now : Nat) :
    ∀ (n : Nat) (s : List Book), ∀ b ∈ (claimLoop iid now n s).2,
      b ∈ s ∨ ∃ o, o ∈ s ∧ b = claimBook iid now o := by
  intro n s
  induction s generalizing n with
  | nil => simp [claimLoop]
  | cons x rest ih =>
    cases n with
    | zero =>
      intro b hb
      simp only [claimLoop] at hb
      exact Or.inl hb
    | succ m =>
      intro b hb
      rcases hx : isPending x with _ | _
      · simp only [claimLoop, hx, Bool.false_eq_true, if_false] at hb
        rcases List.mem_cons.mp hb with hb | hb
        · exact Or.inl (by simp [hb])
        · rcases ih (m + 1) b hb with h | ⟨o, ho, he⟩
          · exact Or.inl (List.mem_cons_of_mem _ h)
          · exact Or.inr ⟨o, List.mem_cons_of_mem _ ho, he⟩
      · simp only [claimLoop, hx, if_true] at hb
        rcases List.mem_cons.mp hb with hb | hb
        · exact Or.inr ⟨x, List.mem_cons_self x rest, hb⟩
        · rcases ih m b hb with h | ⟨o, ho, he⟩
          · exact Or.inl (List.mem_cons_of_mem _ h)
          · exact Or.inr ⟨o, List.mem_cons_of_mem _ ho, he⟩

theorem claimUploadLoop_mem_store (iid : String) (now : Nat) :
    ∀ (n : Nat) (s : List Book), ∀ b ∈ (claimUploadLoop iid now n s).2,
      b ∈ s ∨ ∃ o, o ∈ s ∧ b = claimUploadBook iid now o := by
  intro n s
  induction s generalizing n with
  | nil => simp [claimUploadLoop]
  | cons x rest ih =>
    cases n with
    | zero =>
      intro b hb
      simp only [claimUploadLoop] at hb
      exact Or.inl hb
    | succ m =>
      intro b hb
      rcases hx : uploadEligible x with _ | _
      · simp only [claimUploadLoop, hx, Bool.false_eq_true, if_false] at hb
        rcases List.mem_cons.mp hb with hb | hb
        · exact Or.inl (by simp [hb])
        · rcases ih (m + 1) b hb with h | ⟨o, ho, he⟩
          · exact Or.inl (List.mem_cons_of_mem _ h)
          · exact Or.inr ⟨o, List.mem_cons_of_mem _ ho, he⟩
      · simp only [claimUploadLoop, hx, if_true] at hb
        rcases List.mem_cons.mp hb with hb | hb
        · exact Or.inr ⟨x, List.mem_cons_self x rest, hb⟩
        · rcases ih m b hb with h | ⟨o, ho, he⟩
          · exact Or.inl (List.mem_cons_of_mem _ h)
          · exact Or.inr ⟨o, List.mem_cons_of_mem _ ho, he⟩

theorem resetLoop_mem_store (p : Book → Bool) (now : Nat) :
    ∀ (s : List Book), ∀ b ∈ (resetLoop p now s).1,
      b ∈ s ∨ ∃ o, o ∈ s ∧ b = resetBook now o := by
  intro s
  induction s with
  | nil => simp [resetLoop]
  | cons x rest ih =>
    intro b hb
    rcases hx : p x with _ | _
    · simp only [resetLoop, hx, Bool.false_eq_true, if_false] at hb
      rcases List.mem_cons.mp hb with hb | hb
      · exact Or.inl (by simp [hb])
      · rcases ih b hb with h | ⟨o, ho, he⟩
        · exact Or.inl (List.mem_cons_of_mem _ h)
        · exact Or.inr ⟨o, List.mem_cons_of_mem _ ho, he⟩
    · simp only [resetLoop, hx, if_true] at hb
      rcases List.mem_cons.mp hb with hb | hb
      · exact Or.inr ⟨x, List.mem_cons_self x rest, hb⟩
      · rcases ih b hb with h | ⟨o, ho, he⟩
        · exact Or.inl (List.mem_cons_of_mem _ h)
        · exact Or.inr ⟨o, List.mem_cons_of_mem _ ho, he⟩

theorem upload_data_mem (bid : String) (p : UpdatePayload) (now : Nat)
    (s : List Book) : ∀ b ∈ upload_data bid p now s,
      b ∈ s ∨ (∃ o, o ∈ s ∧ b = applyPayload p now o) ∨
        b = newBook bid p now := by
  intro b hb
  unfold upload_data at hb
  by_cases hex : s.any (fun x => x.id == bid) = true
  · rw [if_pos hex] at hb
    rcases List.mem_map.mp hb with ⟨o, ho, he⟩
    by_cases hid : (o.id == bid) = true
    · rw [if_pos hid] at he
      exact Or.inr (Or.inl ⟨o, ho, he.symm⟩)
    · rw [if_neg hid] at he
      exact Or.inl (he ▸ ho)
  · rw [if_neg hex] at hb
    by_cases hdp : p.download_path.isSome
    · rw [if_pos hdp] at hb
      exact Or.inl hb
    · rw [if_neg hdp] at hb
      rcases List.mem_append.mp hb with h | h
      · exact Or.inl h
      · exact Or.inr (Or.inr (by simpa using h))

theorem applyOp_preserves_InProgressClaimed (op : Op) (s : List Book)
    (h : InProgressClaimed s) : InProgressClaimed (applyOp op s) := by
  cases op with
  | claim req iid now =>
    dsimp only [applyOp]
    rcases hcb : claim_books req iid now s with e | r
    · exact h
    · unfold claim_books at hcb
      by_cases hw : iid.getD "instance" = "" ∨ 64 < (iid.getD "instance").length
      · simp [hw] at hcb
      · simp only [hw, if_false, Except.ok.injEq] at hcb
        intro b hb hst
        rw [← hcb] at hb
        rcases claimLoop_mem_store (iid.getD "instance") now _ s b hb with
          hmem | ⟨o, ho, he⟩
        · exact h b hmem hst
        · have hne : ¬ iid.getD "instance" = "" := fun hh => hw (Or.inl hh)
          subst he
          simpa [claimBook, isNullOrEmpty] using hne
  | claimUpload req iid now =>
    dsimp only [applyOp]
    rcases hcb : claim_upload_batch req iid now s with e | r
    · exact h
    · unfold claim_upload_batch at hcb
      by_cases hw : iid.getD "uploader" = "" ∨ 64 < (iid.getD "uploader").length
      · simp [hw] at hcb
      · simp only [hw, if_false, Except.ok.injEq] at hcb
        intro b hb hst
        rw [← hcb] at hb
        rcases claimUploadLoop_mem_store (iid.getD "uploader") now _ s b hb with
          hmem | ⟨o, ho, he⟩
        · exact h b hmem hst
        · have hne : ¬ iid.getD "uploader" = "" := fun hh => hw (Or.inl hh)
          subst he
          simpa [claimUploadBook, isNullOrEmpty] using hne
  | reportDone bid dp now =>
    intro b hb hst
    rcases upload_data_mem bid _ now s b hb with hmem | ⟨o, ho, he⟩ | he
    · exact h b hmem hst
    · subst he
      exact absurd hst (by simp [applyPayload])
    · subst he
      exact absurd hst (by simp [newBook])
  | reportFailed bid now =>
    intro b hb hst
    rcases upload_data_mem bid _ now s b hb with hmem | ⟨o, ho, he⟩ | he
    · exact h b hmem hst
    · subst he
      exact absurd hst (by simp [applyPayload])
    · subst he
      exact absurd hst (by simp [newBook])
  | uploadReport bid url now =>
    intro b hb hst
    rcases upload_data_mem bid _ now s b hb with hmem | ⟨o, ho, he⟩ | he
    · exact h b hmem hst
    · subst he
      exact h o ho (by simpa [applyPayload] using hst)
    · subst he
      exact absurd hst (by simp [newBook])
  | reset iid rf age now =>
    intro b hb hst
    rcases resetLoop_mem_store _ now s b hb with hmem | ⟨o, ho, he⟩
    · exact h b hmem hst
    · subst he
      exact absurd hst (by simp [resetBook])

theorem applyOps_preserves_InProgressClaimed (ops : List Op) :
    ∀ (s : List Book), InProgressClaimed s →
      InProgressClaimed (applyOps ops s) := by
  induction ops with
  | nil => intro s h; exact h
  | cons op rest ih =>
    intro s h
    exact ih (applyOp op s) (applyOp_preserves_InProgressClaimed op s h)

/-- C5 counterexample: the biconditional `claimed_by non-empty ↔ status =
'in_progress'` is violated in a reachable state: claim then Done-report
leaves a `done` row with `claimed_by = 'w1'`. -/
theorem C5_lease_iff_counterexample :
    ¬ (∀ (s0 : List Book),
        (∀ b ∈ s0, b.download_status = "pending" ∧ b.claimed_by = none) →
        ∀ (ops : List Op), ∀ b ∈ applyOps ops s0,
          (isNullOrEmpty b.claimed_by = false ↔
            b.download_status = "in_progress")) := by
  intro h
  have hb := h [⟨"b1", "pending", none, none, 0⟩] (by decide)
    [Op.claim (some 5) (some "w1") 1, Op.reportDone "b1" (some "p.pdf") 2]
    ⟨"b1", "done", some "w1", none, 2⟩ (by decide)
  exact absurd (hb.mp rfl) (by decide)

/-- C5 amended: of the spec biconditional only one direction holds in
every reachable state: every `in_progress` row has a non-empty
`claimed_by`.  The converse fails (see the counterexample): both
`claim_upload_batch` and a terminal report leave `claimed_by` set on rows
whose status is not `in_progress`. -/
theorem C5_inprogress_implies_claimed (s0 : List Book)
    (h : ∀ b ∈ s0, b.download_status = "pending" ∧ b.claimed_by = none)
    (ops : List Op) : InProgressClaimed (applyOps ops s0) := by
  refine applyOps_preserves_InProgressClaimed ops s0 ?_
  intro b hb hst
  rcases h b hb with ⟨hp, -⟩
  rw [hp] at hst
  exact absurd hst (by decide)

/-- Witness for C5 amended on a concrete one-row store and a concrete
claim-then-report history. -/
theorem C5_inprogress_implies_claimed_witness :
    InProgressClaimed (applyOps
      [Op.claim (some 5) (some "w1") 1, Op.reportDone "b1" (some "p.pdf") 2]
      [⟨"b1", "pending", none, none, 0⟩]) :=
  C5_inprogress_implies_claimed [⟨"b1", "pending", none, none, 0⟩]
    (by decide)
    [Op.claim (some 5) (some "w1") 1, Op.reportDone "b1" (some "p.pdf") 2]

/-! Section: Exclusivity of concurrent claims (C1)

Each `claim_books` call is one atomic transaction (`begin_nested` +
`FOR UPDATE SKIP LOCKED` + `commit`), so any interleaving of concurrent
calls is equivalent to some sequence of atomic claims on the store. -/

structure ClaimCall where
  batch_size : Option Nat
  instance_id : Option String
  now : Nat

/-- One `claim_books` call as the store sees it: a failed (rejected) call
claims nothing and leaves the store alone. -/
def claimStep (c : ClaimCall) (s : List Book) : List Book × List Book :=
  match claim_books c.batch_size c.instance_id c.now s with
  | Except.ok r => r
  | Except.error _ => ([], s)

/-- A sequence of claim calls; returns each call's claimed batch and the
final store. -/
def runClaims : List ClaimCall → List Book → List (List Book) × List Book
  | [], s => ([], s)
  | c :: cs, s =>
    ((claimStep c s).1 :: (runClaims cs (claimStep c s).2).1,
     (runClaims cs (claimStep c s).2).2)

theorem claimLoop_store_ids (iid : String) (now : Nat) :
    ∀ (n : Nat) (s : List Book),
      ((claimLoop iid now n s).2).map Book.id = s.map Book.id := by
  intro n s
  induction s generalizing n with
  | nil => simp [claimLoop]
  | cons x rest ih =>
    cases n with
    | zero => simp [claimLoop]
    | succ m =>
      rcases hx : isPending x with _ | _
      · simp [claimLoop, hx, ih (m + 1)]
      · simp [claimLoop, hx, claimBook, ih m]

theorem claimLoop_claimed_from_pending (iid : String) (now : Nat) :
    ∀ (n : Nat) (s : List Book), ∀ x ∈ (claimLoop iid now n s).1,
      ∃ o, o ∈ s ∧ o.id = x.id ∧ isPending o = true := by
  intro n s
  induction s generalizing n with
  | nil => simp [claimLoop]
  | cons b rest ih =>
    cases n with
    | zero => simp [claimLoop]
    | succ m =>
      intro x hx
      rcases hb : isPending b with _ | _
      · simp only [claimLoop, hb, Bool.false_eq_true, if_false] at hx
        rcases ih (m + 1) x hx with ⟨o, ho, hid, hp⟩
        exact ⟨o, List.mem_cons_of_mem _ ho, hid, hp⟩
      · simp only [claimLoop, hb, if_true] at hx
        rcases List.mem_cons.mp hx with hx | hx
        · exact ⟨b, List.mem_cons_self b rest, by rw [hx]; rfl, hb⟩
        · rcases ih m x hx with ⟨o, ho, hid, hp⟩
          exact ⟨o, List.mem_cons_of_mem _ ho, hid, hp⟩

theorem claimLoop_pending_untouched (iid : String) (now : Nat) :
    ∀ (n : Nat) (s : List Book), (s.map Book.id).Nodup →
      ∀ b ∈ (claimLoop iid now n s).2, isPending b = true →
        b ∈ s ∧ ∀ x ∈ (claimLoop iid now n s).1, x.id ≠ b.id := by
  intro n s
  induction s generalizing n with
  | nil => simp [claimLoop]
  | cons y rest ih =>
    intro hnd
    rw [List.map_cons, List.nodup_cons] at hnd
    rcases hnd with ⟨hy, hnd⟩
    cases n with
    | zero =>
      intro b hb hp
      simp only [claimLoop] at hb ⊢
      exact ⟨hb, by simp⟩
    | succ m =>
      intro b hb hp
      rcases hys : isPending y with _ | _
      · simp only [claimLoop, hys, Bool.false_eq_true, if_false] at hb ⊢
        rcases List.mem_cons.mp hb with hb | hb
        · refine ⟨by simp [hb], ?_⟩
          subst hb
          rw [hp] at hys
          cases hys
        · rcases ih (m + 1) hnd b hb hp with ⟨hmem, hcl⟩
          exact ⟨List.mem_cons_of_mem _ hmem, hcl⟩
      · simp only [claimLoop, hys, if_true] at hb ⊢
        rcases List.mem_cons.mp hb with hb | hb
        · exfalso
          have hcp : isPending (claimBook iid now y) = false := rfl
          rw [← hb, hp] at hcp
          cases hcp
        · rcases ih m hnd b hb hp with ⟨hmem, hcl⟩
          refine ⟨List.mem_cons_of_mem _ hmem, ?_⟩
          intro x hx
          rcases List.mem_cons.mp hx with hx | hx
          · subst hx
            have hbid : b.id ∈ rest.map Book.id := List.mem_map_of_mem _ hmem
            intro he
            rw [show (claimBook iid now y).id = y.id from rfl] at he
            rw [← he] at hbid
            exact hy hbid
          · exact hcl x hx

theorem claimStep_store_ids (c : ClaimCall) (s : List Book) :
    ((claimStep c s).2).map Book.id = s.map Book.id := by
  unfold claimStep claim_books
  by_cases hw : c.instance_id.getD "instance" = "" ∨
      64 < (c.instance_id.getD "instance").length
  · simp [hw]
  · simp [hw, claimLoop_store_ids]

theorem claimStep_claimed_from_pending (c : ClaimCall) (s : List Book) :
    ∀ x ∈ (claimStep c s).1,
      ∃ o, o ∈ s ∧ o.id = x.id ∧ isPending o = true := by
  unfold claimStep claim_books
  by_cases hw : c.instance_id.getD "instance" = "" ∨
      64 < (c.instance_id.getD "instance").length
  · simp [hw]
  · simp only [hw, if_false]
    exact claimLoop_claimed_from_pending _ c.now _ s

theorem claimStep_pending_untouched (c : ClaimCall) (s : List Book)
    (hnd : (s.map Book.id).Nodup) :
    ∀ b ∈ (claimStep c s).2, isPending b = true →
      b ∈ s ∧ ∀ x ∈ (claimStep c s).1, x.id ≠ b.id := by
  unfold claimStep claim_books
  by_cases hw : c.instance_id.getD "instance" = "" ∨
      64 < (c.instance_id.getD "instance").length
  · simp only [hw, if_true]
    intro b hb hp
    exact ⟨hb, by simp⟩
  · simp only [hw, if_false]
    exact claimLoop_pending_untouched _ c.now _ s hnd

theorem runClaims_spec (cs : List ClaimCall) :
    ∀ (s : List Book), (s.map Book.id).Nodup →
      ((runClaims cs s).2.map Book.id = s.map Book.id) ∧
      (∀ b ∈ (runClaims cs s).2, isPending b = true → b ∈ s) ∧
      (∀ l ∈ (runClaims cs s).1, ∀ x ∈ l,
        ∃ o, o ∈ s ∧ o.id = x.id ∧ isPending o = true) ∧
      (∀ l ∈ (runClaims cs s).1, ∀ x ∈ l,
        ∀ b ∈ (runClaims cs s).2, isPending b = true → x.id ≠ b.id) ∧
      ((runClaims cs s).1.Pairwise (fun l₁ l₂ =>
        ∀ x ∈ l₁, ∀ y ∈ l₂, x.id ≠ y.id)) := by
  induction cs with
  | nil =>
    intro s _
    simp only [runClaims]
    exact ⟨trivial, fun b hb _ => hb, by simp, by simp, List.Pairwise.nil⟩
  | cons c cs ih =>
    intro s hnd
    have hnd1 : (((claimStep c s).2).map Book.id).Nodup := by
      rw [claimStep_store_ids c s]; exact hnd
    rcases ih ((claimStep c s).2) hnd1 with
      ⟨ih_ids, ih_pend, ih_from, ih_disj, ih_pw⟩
    have hstep := claimStep_pending_untouched c s hnd
    refine ⟨?_, ?_, ?_, ?_, ?_⟩
    · show ((runClaims cs (claimStep c s).2).2.map Book.id) = s.map Book.id
      rw [ih_ids, claimStep_store_ids]
    · intro b hb hp
      exact (hstep b (ih_pend b hb hp) hp).1
    · intro l hl x hx
      rcases List.mem_cons.mp hl with hl | hl
      · exact claimStep_claimed_from_pending c s x (hl ▸ hx)
      · rcases ih_from l hl x hx with ⟨o, ho, hid, hp⟩
        rcases hstep o ho hp with ⟨homem, -⟩
        exact ⟨o, homem, hid, hp⟩
    · intro l hl x hx b hb hp
      rcases List.mem_cons.mp hl with hl | hl
      · have hb1 := ih_pend b hb hp
        exact (hstep b hb1 hp).2 x (hl ▸ hx)
      · exact ih_disj l hl x hx b hb hp
    · refine List.Pairwise.cons ?_ ih_pw
      intro l hl x hx y hy
      rcases ih_from l hl y hy with ⟨o, ho, hid, hp⟩
      have := (hstep o ho hp).2 x hx
      rw [hid] at this
      exact this

/-- C1: any sequence of atomic `claim_books` transactions over a store
with distinct primary keys hands out pairwise-disjoint batches: no two
claim calls ever return a row with the same id. -/
theorem C1_concurrent_claims_disjoint (calls : List ClaimCall)
    (s : List Book) (h : (s.map Book.id).Nodup) :
    ((runClaims calls s).1).Pairwise (fun l₁ l₂ =>
      ∀ x ∈ l₁, ∀ y ∈ l₂, x.id ≠ y.id) :=
  (runClaims_spec calls s h).2.2.2.2

/-- Witness for C1: two workers each claiming 2 of 3 pending rows get
disjoint batches. -/
theorem C1_concurrent_claims_disjoint_witness :
    ((runClaims
      [⟨some 2, some "w1", 1⟩, ⟨some 2, some "w2", 2⟩]
      [⟨"p1", "pending", none, none, 0⟩, ⟨"p2", "pending", none, none, 0⟩,
       ⟨"p3", "pending", none, none, 0⟩]).1).Pairwise (fun l₁ l₂ =>
      ∀ x ∈ l₁, ∀ y ∈ l₂, x.id ≠ y.id) :=
  C1_concurrent_claims_disjoint
    [⟨some 2, some "w1", 1⟩, ⟨some 2, some "w2", 2⟩]
    [⟨"p1", "pending", none, none, 0⟩, ⟨"p2", "pending", none, none, 0⟩,
     ⟨"p3", "pending", none, none, 0⟩] (by decide)

/-! Section: The download worker's per-book retry loop (C7)

`src/download_file.py`, `main` (lines 441-725).  For each claimed book the
worker runs `while not download_successful and book_retry_count <
max_book_retries` (line 491, `max_book_retries = 3`), incrementing
`book_retry_count` at the top of every iteration (line 492).  What an
iteration does is driven by the environment (accounts file, HTTP layer,
browser); we model it as one `AttemptOutcome` per iteration, mapping each
source branch:

- `noAccounts` (lines 500-505): account reload came back empty → report
  `'failed'`, stop.
- `httpError` (lines 517-530): `handle_http_errors` failed → report
  `'failed'` only on the last allowed attempt, otherwise retry.
- `cooldown` (512-514), `loginFail` (538-545), `buttonNotFound` (567-570),
  `limitHit` (616-619), `webDriverErr` (665-677, driver restarted): move
  to the next account / next attempt WITHOUT any report.
- `downloadOk` (631-643): report `'done'`, stop.
- `downloadTimeout` (644-654), `timeoutExc` (656-663), `unexpectedExc`
  (682-690): report `'failed'` only on the last allowed attempt.

A `WebDriverException` past `max_driver_restarts` (line 680) or a
`KeyboardInterrupt` (695) abandons the whole batch with no further
reports, which only widens the gap between the loop and the claim. -/

inductive AttemptOutcome where
  | noAccounts
  | httpError
  | cooldown
  | loginFail
  | buttonNotFound
  | limitHit
  | webDriverErr
  | downloadOk (path : String)
  | downloadTimeout
  | timeoutExc
  | unexpectedExc

def max_book_retries : Nat := 3

/-- The retry loop for one book: `fuel` is the number of allowed attempts
left (`max_book_retries - book_retry_count` before the increment), `k`
the attempt index fed to the environment.  Returns the list of
`update_book_status` calls (book id, reported status) the loop issues. -/
def bookLoop (bid : String) (env : Nat → AttemptOutcome) :
    Nat → Nat → List (String × String)
  | 0, _ => []
  | fuel + 1, k =>
    match env k with
    | AttemptOutcome.downloadOk _ => [(bid, "done")]
    | AttemptOutcome.noAccounts => [(bid, "failed")]
    | AttemptOutcome.httpError =>
      if fuel = 0 then [(bid, "failed")] else bookLoop bid env fuel (k + 1)
    | AttemptOutcome.downloadTimeout =>
      if fuel = 0 then [(bid, "failed")] else bookLoop bid env fuel (k + 1)
    | AttemptOutcome.timeoutExc =>
      if fuel = 0 then [(bid, "failed")] else bookLoop bid env fuel (k + 1)
    | AttemptOutcome.unexpectedExc =>
      if fuel = 0 then [(bid, "failed")] else bookLoop bid env fuel (k + 1)
    | AttemptOutcome.cooldown => bookLoop bid env fuel (k + 1)
    | AttemptOutcome.loginFail => bookLoop bid env fuel (k + 1)
    | AttemptOutcome.buttonNotFound => bookLoop bid env fuel (k + 1)
    | AttemptOutcome.limitHit => bookLoop bid env fuel (k + 1)
    | AttemptOutcome.webDriverErr => bookLoop bid env fuel (k + 1)

def processBook (bid : String) (env : Nat → AttemptOutcome) :
    List (String × String) :=
  bookLoop bid env max_book_retries 0

/-- Loop `for book in books` — the whole claimed batch. -/
def processBatch (env : String → Nat → AttemptOutcome)
    (bids : List String) : List (String × String) :=
  bids.flatMap (fun bid => processBook bid (env bid))

theorem bookLoop_reports (bid : String) (env : Nat → AttemptOutcome) :
    ∀ (fuel k : Nat),
      (bookLoop bid env fuel k).length ≤ 1 ∧
      ∀ r ∈ bookLoop bid env fuel k,
        r.1 = bid ∧ (r.2 = "done" ∨ r.2 = "failed") := by
  intro fuel
  induction fuel with
  | zero => intro k; simp [bookLoop]
  | succ m ih =>
    intro k
    have hif : ∀ l : List (String × String),
        (l.length ≤ 1 ∧ ∀ r ∈ l, r.1 = bid ∧ (r.2 = "done" ∨ r.2 = "failed")) →
        ((if m = 0 then [(bid, "failed")] else l).length ≤ 1 ∧
         ∀ r ∈ (if m = 0 then [(bid, "failed")] else l),
           r.1 = bid ∧ (r.2 = "done" ∨ r.2 = "failed")) := by
      intro l hl
      by_cases hm : m = 0
      · simp [hm]
      · simpa [hm] using hl
    cases h : env k with
    | noAccounts =>
      rw [show bookLoop bid env (m + 1) k = [(bid, "failed")] from by
        simp [bookLoop, h]]
      simp
    | downloadOk p =>
      rw [show bookLoop bid env (m + 1) k = [(bid, "done")] from by
        simp [bookLoop, h]]
      simp
    | httpError =>
      rw [show bookLoop bid env (m + 1) k =
          (if m = 0 then [(bid, "failed")] else bookLoop bid env m (k + 1))
        from by simp [bookLoop, h]]
      exact hif _ (ih (k + 1))
    | downloadTimeout =>
      rw [show bookLoop bid env (m + 1) k =
          (if m = 0 then [(bid, "failed")] else bookLoop bid env m (k + 1))
        from by simp [bookLoop, h]]
      exact hif _ (ih (k + 1))
    | timeoutExc =>
      rw [show bookLoop bid env (m + 1) k =
          (if m = 0 then [(bid, "failed")] else bookLoop bid env m (k + 1))
        from by simp [bookLoop, h]]
      exact hif _ (ih (k + 1))
    | unexpectedExc =>
      rw [show bookLoop bid env (m + 1) k =
          (if m = 0 then [(bid, "failed")] else bookLoop bid env m (k + 1))
        from by simp [bookLoop, h]]
      exact hif _ (ih (k + 1))
    | cooldown =>
      rw [show bookLoop bid env (m + 1) k = bookLoop bid env m (k + 1) from by
        simp [bookLoop, h]]
      exact ih (k + 1)
    | loginFail =>
      rw [show bookLoop bid env (m + 1) k = bookLoop bid env m (k + 1) from by
        simp [bookLoop, h]]
      exact ih (k + 1)
    | buttonNotFound =>
      rw [show bookLoop bid env (m + 1) k = bookLoop bid env m (k + 1) from by
        simp [bookLoop, h]]
      exact ih (k + 1)
    | limitHit =>
      rw [show bookLoop bid env (m + 1) k = bookLoop bid env m (k + 1) from by
        simp [bookLoop, h]]
      exact ih (k + 1)
    | webDriverErr =>
      rw [show bookLoop bid env (m + 1) k = bookLoop bid env m (k + 1) from by
        simp [bookLoop, h]]
      exact ih (k + 1)

/-- C7 counterexample: with every attempt failing at login (branch at
lines 538-545, which switches account and retries without reporting), the
retry budget is exhausted and the loop ends with NO terminal report: the
book stays `in_progress` until a reset sweeps it. -/
theorem C7_exactly_one_report_counterexample :
    ¬ (∀ (bid : String) (env : Nat → AttemptOutcome),
        (processBook bid env).length = 1) := by
  intro h
  have h1 := h "b1" (fun _ => AttemptOutcome.loginFail)
  rw [show processBook "b1" (fun _ => AttemptOutcome.loginFail) = []
    from rfl] at h1
  cases h1

/-- C7 amended: the worker issues AT MOST one terminal report (`'done'` or
`'failed'`, always for the right book id) per claimed book — but possibly
none: when all three attempts end in a non-reporting branch (login
failure, account cooldown, missing download button, account limit, driver
restart) the book is left `in_progress`.  Consequently a batch produces at
most one report per item, not exactly one. -/
theorem C7_at_most_one_report :
    (∀ (bid : String) (env : Nat → AttemptOutcome),
      (processBook bid env).length ≤ 1 ∧
      ∀ r ∈ processBook bid env,
        r.1 = bid ∧ (r.2 = "done" ∨ r.2 = "failed")) ∧
    (∀ (env : String → Nat → AttemptOutcome) (bids : List String),
      (processBatch env bids).length ≤ bids.length) := by
  constructor
  · intro bid env
    exact bookLoop_reports bid env max_book_retries 0
  · intro env bids
    induction bids with
    | nil => simp [processBatch]
    | cons bid rest ih =>
      have h1 := (bookLoop_reports bid (env bid) max_book_retries 0).1
      calc (processBatch env (bid :: rest)).length
          = (processBook bid (env bid)).length +
              (processBatch env rest).length := by
            simp [processBatch, List.flatMap_cons]
        _ ≤ 1 + rest.length := Nat.add_le_add h1 ih
        _ = rest.length + 1 := Nat.add_comm 1 rest.length

end Kom
